import Mathlib

/-!
Verification of the March Madness ELO simulator (`simulator.py`).

Shallow embedding conventions:
* Python `float` ratings are modelled as real numbers (`ℝ`).
* The ambient random generator (`random.random()`) is modelled as an
  infinite sequence `us : ℕ → ℝ` of drawn values together with a global
  cursor `k : ℕ` threaded through every call, exactly as Python threads
  the state of the module-level generator through every call.
* In-place mutation of `Team` objects is modelled by value passing:
  every function returns the updated team values, and recorded games
  snapshot the values at the time of the game.  This is observationally
  faithful for the source because a team object is mutated only while it
  is still alive in the knockout reduction (eliminated teams are never
  touched again), so a recorded loser's value is its final value.
* The `while` loop of `simulate_region` is modelled with explicit fuel
  equal to the length of the current list; each iteration halves the
  list, so this fuel never runs out on any input.
-/

namespace MM

/-- `K = 20`, the ELO K-factor (`simulator.py`, line 11). -/
noncomputable def K : ℝ := 20

/-- `SEED_MATCHUPS` (line 14): fixed first-round seed pairings of a region. -/
def SEED_MATCHUPS : List (ℕ × ℕ) :=
  [(1, 16), (8, 9), (5, 12), (4, 13), (6, 11), (3, 14), (7, 10), (2, 15)]

/-- `REGIONS` (line 20). -/
def REGIONS : List String := ["east", "west", "south", "midwest"]

/-- The `Team` dataclass (lines 25-30).  `elo` is the mutable rating. -/
structure Team where
  name : String
  elo : ℝ
  seed : ℕ
  region : String

noncomputable instance : Inhabited Team := ⟨⟨"", 0, 0, ""⟩⟩

/-- `win_prob` (lines 110-112): `1.0 / (1.0 + 10 ** ((team_b.elo - team_a.elo) / 400.0))`,
with `**` the real power function. -/
noncomputable def win_prob (team_a team_b : Team) : ℝ :=
  1 / (1 + (10 : ℝ) ^ ((team_b.elo - team_a.elo) / 400))

/-- `update_elo` (lines 115-119): `p` is computed from the pre-update ratings,
then `winner.elo += K * (1 - p)` and `loser.elo += K * (0 - (1 - p))`.
Returns the pair (updated winner, updated loser). -/
noncomputable def update_elo (winner loser : Team) : Team × Team :=
  let p := win_prob winner loser
  ({ winner with elo := winner.elo + K * (1 - p) },
   { loser with elo := loser.elo + K * (0 - (1 - p)) })

/-- `simulate_game` (lines 122-130): draw `u = us k` from the ambient
generator, team `a` wins iff `u < win_prob a b`, then `update_elo` is applied
to (winner, loser).  Returns ((winner, loser), new cursor). -/
noncomputable def simulate_game (us : ℕ → ℝ) (k : ℕ) (team_a team_b : Team) :
    (Team × Team) × ℕ :=
  if us k < win_prob team_a team_b then (update_elo team_a team_b, k + 1)
  else (update_elo team_b team_a, k + 1)

/-- The dictionary comprehension `by_seed = {t.seed: t for t in region_teams}`
followed by `by_seed[s]` (lines 139-142): for a duplicate seed the later entry
wins, hence the last matching element; a missing seed raises `KeyError` in
Python, modelled totally by a default team (never reached under the
unique-seeds precondition). -/
noncomputable def by_seed (region_teams : List Team) (s : ℕ) : Team :=
  (region_teams.filter fun t => t.seed = s).getLastD default

/-- `build_region_bracket` (lines 133-144): for each `(s1, s2)` in
`SEED_MATCHUPS`, append `by_seed[s1]` then `by_seed[s2]`. -/
noncomputable def build_region_bracket (region_teams : List Team) : List Team :=
  SEED_MATCHUPS.foldr
    (fun m acc => by_seed region_teams m.1 :: by_seed region_teams m.2 :: acc) []

/-- The flattened slot order of `SEED_MATCHUPS`. -/
def seed_order : List ℕ := [1, 16, 8, 9, 5, 12, 4, 13, 6, 11, 3, 14, 7, 10, 2, 15]

/-- The structural precondition `_validate_teams` enforces per region
(lines 93-104): the multiset of seeds is exactly `1..16`
(`sorted(seeds) == list(range(1, 17))`). -/
def valid_region (ts : List Team) : Prop :=
  List.Perm (ts.map Team.seed) (List.range' 1 16)

instance (ts : List Team) : Decidable (valid_region ts) :=
  List.decidablePerm _ _

/-- A concrete 16-team region used by witnesses: seeds 1-16, all rated 1500. -/
noncomputable def east16 : List Team :=
  (List.range' 1 16).map fun s => ⟨"east" ++ Nat.repr s, 1500, s, "east"⟩

/-- The body of the `for i in range(0, len(current), 2)` loop of
`simulate_region` (lines 158-163): resolve consecutive pairs in order,
collecting the (winner, loser) games and the list of winners (`next_round`),
threading the generator cursor.  A trailing odd element would raise
`IndexError` in Python; the total model returns the rounds built so far. -/
noncomputable def play_round (us : ℕ → ℝ) (k : ℕ) :
    List Team → List (Team × Team) × List Team × ℕ
  | a :: b :: rest =>
    let g := simulate_game us k a b
    let r := play_round us g.2 rest
    (g.1 :: r.1, g.1.1 :: r.2.1, r.2.2)
  | _ => ([], [], k)

/-- The `while len(current) > 1` loop of `simulate_region` (lines 156-165),
with explicit fuel.  Each iteration halves the list, so fuel equal to the
initial list length never runs out; the loop is exited as soon as at most one
team remains.  Returns (rounds, final current list, cursor). -/
noncomputable def simulate_region_loop (us : ℕ → ℝ) :
    ℕ → List Team → ℕ → List (List (Team × Team)) × List Team × ℕ
  | 0, current, k => ([], current, k)
  | fuel + 1, current, k =>
    if current.length ≤ 1 then ([], current, k)
    else
      let p := play_round us k current
      let r := simulate_region_loop us fuel p.2.1 p.2.2
      (p.1 :: r.1, r.2.1, r.2.2)

/-- `simulate_region` (lines 147-167): build the bracket, run the knockout
loop, return ((region winner = `current[0]`, rounds), cursor). -/
noncomputable def simulate_region (us : ℕ → ℝ) (region_teams : List Team) (k : ℕ) :
    (Team × List (List (Team × Team))) × ℕ :=
  let bracket := build_region_bracket region_teams
  let r := simulate_region_loop us bracket.length bracket k
  ((r.2.1.headD default, r.1), r.2.2)

/-- The names of the participants of a round's recorded games, in game order. -/
def participant_names (games : List (Team × Team)) : List String :=
  games.foldr (fun g acc => g.1.name :: g.2.name :: acc) []

/-- The names of the winners of a round's recorded games, in game order. -/
def winner_names (games : List (Team × Team)) : List String :=
  games.map fun g => g.1.name

/-- The sum of the recorded losers' ratings of one round. -/
noncomputable def losers_elo (games : List (Team × Team)) : ℝ :=
  (games.map fun g => g.2.elo).sum

/-- Expected game counts of a knockout on `2 ^ j` teams: `[2^(j-1), …, 2, 1]`. -/
def round_lengths : ℕ → List ℕ
  | 0 => []
  | j + 1 => 2 ^ j :: round_lengths j

/-- `chained entrants rounds`: the first round's participants are exactly
`entrants` (up to pairing order) and each later round's participants are
exactly the previous round's winners. -/
def chained (entrants : List String) : List (List (Team × Team)) → Prop
  | [] => True
  | games :: rest =>
    List.Perm (participant_names games) entrants ∧ chained (winner_names games) rest

/-- The result dict of `simulate_tournament` (lines 199-205).  The
`region_brackets` dict is modelled as an association list in insertion order
(`REGIONS` order), matching Python dict iteration order. -/
structure TournamentResult where
  region_brackets : List (String × List (List (Team × Team)))
  region_winners : List (String × Team)
  f4_results : List (Team × Team)
  champ_result : Team × Team
  champion : Team

noncomputable instance : Inhabited TournamentResult :=
  ⟨⟨[], [], [], (default, default), default⟩⟩

/-- `simulate_tournament` (lines 170-205): partition by region (the loop over
`REGIONS` with `regions[t.region].append(t)` is a filter per region label, in
`REGIONS` order; a team with an unknown region label would raise `KeyError` in
Python and is dropped in the total model), run the four regions in `REGIONS`
order, then the two `SEMIFINAL_PAIRS` games (east-west, south-midwest), then
the championship game between the two semifinal winners. -/
noncomputable def simulate_tournament (us : ℕ → ℝ) (teams : List Team) (k : ℕ) :
    TournamentResult × ℕ :=
  let e := simulate_region us (teams.filter fun t => t.region = "east") k
  let w := simulate_region us (teams.filter fun t => t.region = "west") e.2
  let s := simulate_region us (teams.filter fun t => t.region = "south") w.2
  let m := simulate_region us (teams.filter fun t => t.region = "midwest") s.2
  let g1 := simulate_game us m.2 e.1.1 w.1.1
  let g2 := simulate_game us g1.2 s.1.1 m.1.1
  let gc := simulate_game us g2.2 g1.1.1 g2.1.1
  ({ region_brackets :=
       [("east", e.1.2), ("west", w.1.2), ("south", s.1.2), ("midwest", m.1.2)],
     region_winners :=
       [("east", e.1.1), ("west", w.1.1), ("south", s.1.1), ("midwest", m.1.1)],
     f4_results := [g1.1, g2.1],
     champ_result := gc.1,
     champion := gc.1.1 }, gc.2)

/-- `run_single` (lines 208-210): deep-copy the roster, then simulate.  In the
value model the deep copy is the value itself; the heap model below
(`run_single_heap`) makes the fresh allocation explicit. -/
noncomputable def run_single (us : ℕ → ℝ) (teams : List Team) (k : ℕ) :
    TournamentResult × ℕ :=
  simulate_tournament us teams k

/-- `run_trials` (lines 213-215): `[run_single(teams) for _ in range(n)]`,
threading the shared ambient generator cursor sequentially through the
trials. -/
noncomputable def run_trials (us : ℕ → ℝ) (teams : List Team) :
    ℕ → ℕ → List TournamentResult × ℕ
  | 0, k => ([], k)
  | n + 1, k =>
    let r := run_single us teams k
    let rest := run_trials us teams n r.2
    (r.1 :: rest.1, rest.2)

/-- The structural precondition `_validate_teams` (lines 71-107) enforces on a
full roster: unique names, 64 teams, every region label one of `REGIONS`, and
per region exactly the seeds 1-16 (as a multiset; the source compares the
sorted seed list with `range(1, 17)`). -/
def valid_roster (ts : List Team) : Prop :=
  (ts.map Team.name).Nodup ∧ ts.length = 64 ∧
  (∀ t ∈ ts, t.region ∈ REGIONS) ∧
  (∀ r ∈ REGIONS, valid_region (ts.filter fun t => t.region = r))

instance (ts : List Team) : Decidable (valid_roster ts) := by
  unfold valid_roster
  infer_instance

/-- A concrete valid 64-team roster used by witnesses: 16 seeds per region,
every team rated 1500. -/
noncomputable def roster64 : List Team :=
  REGIONS.foldr
    (fun rg acc =>
      ((List.range' 1 16).map fun s => ⟨rg ++ Nat.repr s, 1500, s, rg⟩) ++ acc)
    []

/-- A concrete draw sequence: 0 for the first 63 draws, 1 afterwards. -/
noncomputable def us0 : ℕ → ℝ := fun k => if k < 63 then 0 else 1

/-! #### Monte Carlo tallying (`compute_probabilities`, lines 218-267) -/

/-- `counts[winner.name][slot] += 1` guarded by `winner.name in counts`
(the dict `counts` has exactly the roster's team names as keys). -/
def bump (names : List String) (counts : String → ℕ → ℕ) (nm : String) (slot : ℕ) :
    String → ℕ → ℕ :=
  if nm ∈ names then
    fun n s => if n = nm ∧ s = slot then counts n s + 1 else counts n s
  else counts

/-- Tally every game winner of one round at the given slot (lines 238-240). -/
def tally_games (names : List String) (counts : String → ℕ → ℕ) (slot : ℕ) :
    List (Team × Team) → String → ℕ → ℕ
  | [] => counts
  | g :: gs => tally_games names (bump names counts g.1.name slot) slot gs

/-- Tally a region's rounds at slots `r_idx = 0, 1, 2, …` (lines 237-240). -/
def tally_rounds (names : List String) (counts : String → ℕ → ℕ) :
    ℕ → List (List (Team × Team)) → String → ℕ → ℕ
  | _, [] => counts
  | r_idx, round0 :: rest =>
    tally_rounds names (tally_games names counts r_idx round0) (r_idx + 1) rest

/-- Tally all regions of one result (lines 234-240). -/
def tally_regions (names : List String) (counts : String → ℕ → ℕ) :
    List (String × List (List (Team × Team))) → String → ℕ → ℕ
  | [] => counts
  | pr :: rest => tally_regions names (tally_rounds names counts 0 pr.2) rest

/-- Tally one simulation result: region rounds at slots 0-3, Final Four
winners at slot 4, the champion at slot 5 (lines 233-250). -/
def tally_result (names : List String) (counts : String → ℕ → ℕ)
    (res : TournamentResult) : String → ℕ → ℕ :=
  bump names
    (tally_games names (tally_regions names counts res.region_brackets) 4 res.f4_results)
    res.champ_result.1.name 5

/-- Left fold of `tally_result` over the results (lines 233-250). -/
def tally_results (names : List String) (counts : String → ℕ → ℕ) :
    List TournamentResult → String → ℕ → ℕ
  | [] => counts
  | res :: rest => tally_results names (tally_result names counts res) rest

/-- The per-team, per-slot raw win counts of `compute_probabilities`
(lines 229-250), before division by `n` and rounding. -/
def compute_counts (teams : List Team) (results : List TournamentResult) :
    String → ℕ → ℕ :=
  tally_results (teams.map Team.name) (fun _ _ => 0) results

/-- Shape facts about one simulation result that the tallying lemmas use:
the champion's name is a roster name and every region has at most 4 recorded
rounds (so region tallying touches only slots 0-3). -/
def good_result (names : List String) (res : TournamentResult) : Prop :=
  res.champ_result.1.name ∈ names ∧ ∀ pr ∈ res.region_brackets, pr.2.length ≤ 4

/-! #### Final ratings of a completed tournament -/

/-- Sum of the ratings of the 64 team objects after `simulate_tournament`,
read off the result: each eliminated team is never mutated after its loss, so
its recorded loser value is its final value; the 64 final values are exactly
the 60 region-round losers, the 2 Final Four losers, the runner-up and the
champion. -/
noncomputable def total_final_elo (res : TournamentResult) : ℝ :=
  res.champ_result.1.elo + res.champ_result.2.elo + losers_elo res.f4_results +
    ((res.region_brackets.map fun pr => ((pr.2.map losers_elo).sum)).sum)

/-! #### Heap model of `copy.deepcopy` for `run_single` -/

/-- Reading a heap cell. -/
noncomputable def heap_get (h : List Team) (i : ℕ) : Team := h.getD i default

/-- `run_single` (lines 208-210) over an explicit heap: the caller's roster is
a list of references (indices) into the heap `h`; `copy.deepcopy(teams)`
allocates fresh cells at the end of the heap holding equal values, the
simulation is run on (and mutates only) those fresh cells, and the heap after
the call extends `h` with the copies' final values (champion, runner-up and
recorded losers, cf. `total_final_elo`).  Returns (result, heap after,
cursor). -/
noncomputable def run_single_heap (us : ℕ → ℝ) (h : List Team) (roster : List ℕ)
    (k : ℕ) : TournamentResult × List Team × ℕ :=
  let copied := roster.map (heap_get h)
  let r := simulate_tournament us copied k
  (r.1,
   h ++ (r.1.champ_result.1 :: r.1.champ_result.2 :: r.1.f4_results.map Prod.snd ++
     (r.1.region_brackets.map fun pr => pr.2.flatten.map Prod.snd).flatten),
   r.2)

/-- The first recorded game of the first region's first round: the observable
used to exhibit the shared ambient generator. -/
noncomputable def first_rd64_winner_name (res : TournamentResult) : String :=
  ((((res.region_brackets.headD ("", [])).2).headD []).headD (default, default)).1.name

/-! ### Basic facts about the rating model -/

lemma win_prob_denom_pos (a b : Team) :
    0 < 1 + (10 : ℝ) ^ ((b.elo - a.elo) / 400) := by
  have h := Real.rpow_pos_of_pos (by norm_num : (0:ℝ) < 10) ((b.elo - a.elo) / 400)
  linarith

lemma win_prob_pos (a b : Team) : 0 < win_prob a b := by
  unfold win_prob
  exact div_pos one_pos (win_prob_denom_pos a b)

lemma win_prob_lt_one (a b : Team) : win_prob a b < 1 := by
  unfold win_prob
  rw [div_lt_one (win_prob_denom_pos a b)]
  have h := Real.rpow_pos_of_pos (by norm_num : (0:ℝ) < 10) ((b.elo - a.elo) / 400)
  linarith

/-- Strict monotonicity: a smaller deficit `b.elo - a.elo` gives a strictly
larger win probability. -/
lemma win_prob_lt_win_prob {a₁ b₁ a₂ b₂ : Team}
    (h : b₂.elo - a₂.elo < b₁.elo - a₁.elo) :
    win_prob a₁ b₁ < win_prob a₂ b₂ := by
  unfold win_prob
  have hlt : (10 : ℝ) ^ ((b₂.elo - a₂.elo) / 400) <
      (10 : ℝ) ^ ((b₁.elo - a₁.elo) / 400) := by
    rw [Real.rpow_lt_rpow_left_iff (by norm_num : (1:ℝ) < 10)]
    linarith
  have h₂ := win_prob_denom_pos a₂ b₂
  have h₁ := win_prob_denom_pos a₁ b₁
  rw [div_lt_div_iff₀ h₁ h₂]
  nlinarith

lemma win_prob_of_elo_eq {a b : Team} (h : a.elo = b.elo) :
    win_prob a b = 1 / 2 := by
  unfold win_prob
  rw [h, sub_self, zero_div, Real.rpow_zero]
  norm_num

lemma update_elo_winner_name (w l : Team) : (update_elo w l).1.name = w.name := rfl

lemma update_elo_loser_name (w l : Team) : (update_elo w l).2.name = l.name := rfl

lemma update_elo_winner_elo (w l : Team) :
    (update_elo w l).1.elo = w.elo + K * (1 - win_prob w l) := rfl

lemma update_elo_loser_elo (w l : Team) :
    (update_elo w l).2.elo = l.elo - K * (1 - win_prob w l) := by
  show l.elo + K * (0 - (1 - win_prob w l)) = _
  ring

lemma update_elo_sum (w l : Team) :
    (update_elo w l).1.elo + (update_elo w l).2.elo = w.elo + l.elo := by
  rw [update_elo_winner_elo, update_elo_loser_elo]
  ring

/-- C1: `win_prob a b` equals the ELO logistic formula
`1 / (1 + 10 ^ ((b.elo - a.elo) / 400))` and, for every pair of (real, hence
finite) ratings, lies strictly inside the open interval `(0, 1)` — in
particular it is never exactly 0 or 1. -/
theorem c1_win_prob_formula_and_open_interval (a b : Team) :
    win_prob a b = 1 / (1 + (10 : ℝ) ^ ((b.elo - a.elo) / 400)) ∧
    0 < win_prob a b ∧ win_prob a b < 1 :=
  ⟨rfl, win_prob_pos a b, win_prob_lt_one a b⟩

/-- C2: `update_elo` computes `p = win_prob winner loser` from the pre-update
ratings, adds exactly `K * (1 - p)` to the winner's rating, subtracts exactly
`K * (1 - p)` from the loser's rating (`K = 20`), and therefore leaves the sum
of the two ratings unchanged. -/
theorem c2_update_elo_zero_sum (w l : Team) :
    (update_elo w l).1.elo = w.elo + K * (1 - win_prob w l) ∧
    (update_elo w l).2.elo = l.elo - K * (1 - win_prob w l) ∧
    K = 20 ∧
    (update_elo w l).1.elo + (update_elo w l).2.elo = w.elo + l.elo :=
  ⟨update_elo_winner_elo w l, update_elo_loser_elo w l, rfl, update_elo_sum w l⟩

/-- C3: resolving a game draws `u = us k` from the generator; team `a` is
declared the winner iff `u < win_prob a b`, and the rating update is applied to
the resolved (winner, loser) pair: the returned winner/loser carry the names of
the resolved teams and their `update_elo`-updated ratings (the losing case uses
`p = win_prob b a`, the probability recomputed for the actual winner). -/
theorem c3_simulate_game_resolution (us : ℕ → ℝ) (k : ℕ) (a b : Team) :
    (us k < win_prob a b →
      (simulate_game us k a b).1.1.name = a.name ∧
      (simulate_game us k a b).1.1.elo = a.elo + K * (1 - win_prob a b) ∧
      (simulate_game us k a b).1.2.name = b.name ∧
      (simulate_game us k a b).1.2.elo = b.elo - K * (1 - win_prob a b)) ∧
    (¬ us k < win_prob a b →
      (simulate_game us k a b).1.1.name = b.name ∧
      (simulate_game us k a b).1.1.elo = b.elo + K * (1 - win_prob b a) ∧
      (simulate_game us k a b).1.2.name = a.name ∧
      (simulate_game us k a b).1.2.elo = a.elo - K * (1 - win_prob b a)) ∧
    (simulate_game us k a b).2 = k + 1 := by
  constructor
  · intro h
    simp only [simulate_game, if_pos h]
    exact ⟨update_elo_winner_name a b, update_elo_winner_elo a b,
      update_elo_loser_name a b, update_elo_loser_elo a b⟩
  constructor
  · intro h
    simp only [simulate_game, if_neg h]
    exact ⟨update_elo_winner_name b a, update_elo_winner_elo b a,
      update_elo_loser_name b a, update_elo_loser_elo b a⟩
  · unfold simulate_game
    split <;> rfl

/-- Witness for C3 at a concrete input: two equal-rated teams, draw `u = 0`;
the first team is declared the winner since `0 < win_prob = 1/2`. -/
theorem c3_simulate_game_resolution_witness :
    (simulate_game (fun _ => 0) 0 ⟨"A", 1500, 1, "east"⟩ ⟨"B", 1500, 2, "east"⟩).1.1.name = "A" :=
  ((c3_simulate_game_resolution (fun _ => 0) 0 ⟨"A", 1500, 1, "east"⟩ ⟨"B", 1500, 2, "east"⟩).1
    (win_prob_pos _ _)).1

/-- C8: the winner's rating gain `K * (1 - p)` is strictly decreasing in the
winner's pre-game win probability `p`; in particular, for two scenarios with
equal rating gaps, the same team gains strictly more by winning as the underdog
than by winning as the favorite. -/
theorem c8_underdog_gains_more :
    (∀ a₁ b₁ a₂ b₂ : Team, win_prob a₁ b₁ < win_prob a₂ b₂ →
      (update_elo a₂ b₂).1.elo - a₂.elo < (update_elo a₁ b₁).1.elo - a₁.elo) ∧
    (∀ t u v : Team, t.elo < u.elo → u.elo - t.elo = t.elo - v.elo →
      (update_elo t v).1.elo - t.elo < (update_elo t u).1.elo - t.elo) := by
  constructor
  · intro a₁ b₁ a₂ b₂ h
    rw [update_elo_winner_elo, update_elo_winner_elo]
    unfold K
    nlinarith
  · intro t u v ht hgap
    have h : win_prob t u < win_prob t v := by
      apply win_prob_lt_win_prob
      linarith
    rw [update_elo_winner_elo, update_elo_winner_elo]
    unfold K
    nlinarith

/-- Witness for C8 at concrete inputs: a 1500-rated team beating a 1600-rated
opponent (underdog) gains strictly more than beating a 1400-rated one
(favorite), and the gain is strictly decreasing in `p` for a concrete
probability comparison. -/
theorem c8_underdog_gains_more_witness :
    ((update_elo ⟨"x", 1500, 1, "east"⟩ ⟨"z", 1400, 3, "east"⟩).1.elo -
        (⟨"x", 1500, 1, "east"⟩ : Team).elo <
      (update_elo ⟨"x", 1500, 1, "east"⟩ ⟨"y", 1600, 2, "east"⟩).1.elo -
        (⟨"x", 1500, 1, "east"⟩ : Team).elo) ∧
    ((update_elo ⟨"t", 1500, 1, "west"⟩ ⟨"v", 1300, 3, "west"⟩).1.elo -
        (⟨"t", 1500, 1, "west"⟩ : Team).elo <
      (update_elo ⟨"t", 1500, 1, "west"⟩ ⟨"u", 1700, 2, "west"⟩).1.elo -
        (⟨"t", 1500, 1, "west"⟩ : Team).elo) := by
  have h1 : win_prob (⟨"x", 1500, 1, "east"⟩ : Team) (⟨"y", 1600, 2, "east"⟩ : Team) <
      win_prob (⟨"x", 1500, 1, "east"⟩ : Team) (⟨"z", 1400, 3, "east"⟩ : Team) := by
    apply win_prob_lt_win_prob
    norm_num
  refine ⟨c8_underdog_gains_more.1 _ _ _ _ h1, ?_⟩
  exact c8_underdog_gains_more.2 ⟨"t", 1500, 1, "west"⟩ ⟨"u", 1700, 2, "west"⟩
    ⟨"v", 1300, 3, "west"⟩ (by norm_num) (by norm_num)

/-! ### Bracket construction -/

lemma filter_seed_eq_singleton {ts : List Team} {t : Team}
    (hnd : (ts.map Team.seed).Nodup) (ht : t ∈ ts) :
    ts.filter (fun x => x.seed = t.seed) = [t] := by
  induction ts with
  | nil => cases ht
  | cons a ts ih =>
    rw [List.map_cons, List.nodup_cons] at hnd
    rcases List.mem_cons.mp ht with rfl | hmem
    · rw [List.filter_cons_of_pos (by simp)]
      have : ts.filter (fun x => x.seed = t.seed) = [] := by
        rw [List.filter_eq_nil_iff]
        intro x hx
        simp only [decide_eq_true_eq]
        intro hEq
        exact hnd.1 (hEq ▸ List.mem_map_of_mem Team.seed hx)
      rw [this]
    · have hne : ¬ a.seed = t.seed := by
        intro hEq
        exact hnd.1 (hEq ▸ List.mem_map_of_mem Team.seed hmem)
      rw [List.filter_cons_of_neg (by simpa using hne)]
      exact ih hnd.2 hmem

lemma by_seed_of_mem {ts : List Team} {t : Team}
    (hnd : (ts.map Team.seed).Nodup) (ht : t ∈ ts) :
    by_seed ts t.seed = t := by
  unfold by_seed
  rw [filter_seed_eq_singleton hnd ht]
  rfl

lemma valid_region_nodup {ts : List Team} (h : valid_region ts) :
    (ts.map Team.seed).Nodup :=
  (List.Perm.nodup_iff h).mpr (List.nodup_range' 1 16)

lemma valid_region_mem_seed {ts : List Team} (h : valid_region ts) {s : ℕ}
    (hs : s ∈ seed_order) : s ∈ ts.map Team.seed := by
  rw [List.Perm.mem_iff h]
  have : ∀ x ∈ seed_order, x ∈ List.range' 1 16 := by decide
  exact this s hs

lemma by_seed_seed_eq {ts : List Team} (h : valid_region ts) {s : ℕ}
    (hs : s ∈ seed_order) : (by_seed ts s).seed = s := by
  rcases List.mem_map.mp (valid_region_mem_seed h hs) with ⟨t, ht, rfl⟩
  rw [by_seed_of_mem (valid_region_nodup h) ht]

lemma build_region_bracket_eq_map (ts : List Team) :
    build_region_bracket ts = seed_order.map (by_seed ts) := rfl

lemma build_region_bracket_seeds {ts : List Team} (h : valid_region ts) :
    (build_region_bracket ts).map Team.seed = seed_order := by
  rw [build_region_bracket_eq_map, List.map_map]
  have : ∀ s ∈ seed_order, (Team.seed ∘ by_seed ts) s = id s := fun s hs =>
    by_seed_seed_eq h hs
  rw [List.map_congr_left this, List.map_id]

lemma build_region_bracket_perm {ts : List Team} (h : valid_region ts) :
    List.Perm (build_region_bracket ts) ts := by
  rw [build_region_bracket_eq_map]
  have h1 : List.Perm seed_order (List.range' 1 16) := by decide
  have h2 : List.Perm seed_order (ts.map Team.seed) := h1.trans h.symm
  have h3 : List.Perm (seed_order.map (by_seed ts)) ((ts.map Team.seed).map (by_seed ts)) :=
    h2.map (by_seed ts)
  rw [List.map_map] at h3
  have h4 : ∀ t ∈ ts, (by_seed ts ∘ Team.seed) t = id t := fun t ht =>
    by_seed_of_mem (valid_region_nodup h) ht
  rwa [List.map_congr_left h4, List.map_id] at h3

lemma by_seed_perm_invariant {ts ts' : List Team} (h : valid_region ts)
    (hp : List.Perm ts' ts) {s : ℕ} (hs : s ∈ seed_order) :
    by_seed ts' s = by_seed ts s := by
  rcases List.mem_map.mp (valid_region_mem_seed h hs) with ⟨t, ht, rfl⟩
  have h1 : ts.filter (fun x => x.seed = t.seed) = [t] :=
    filter_seed_eq_singleton (valid_region_nodup h) ht
  have h2 : List.Perm (ts'.filter fun x => x.seed = t.seed)
      (ts.filter fun x => x.seed = t.seed) := hp.filter _
  rw [h1, List.perm_singleton] at h2
  unfold by_seed
  rw [h1, h2]

lemma build_region_bracket_perm_invariant {ts ts' : List Team}
    (h : valid_region ts) (hp : List.Perm ts' ts) :
    build_region_bracket ts' = build_region_bracket ts := by
  rw [build_region_bracket_eq_map, build_region_bracket_eq_map]
  exact List.map_congr_left fun s hs => by_seed_perm_invariant h hp hs

/-- C5: on a 16-team region with unique seeds 1-16, `build_region_bracket`
returns the 16 teams in the fixed pairing-slot order
`(1,16),(8,9),(5,12),(4,13),(6,11),(3,14),(7,10),(2,15)` (seed-major within
each pair), it is a permutation of the input teams, and it is invariant under
reordering of the input (the function is pure and deterministic). -/
theorem c5_bracket_fixed_order {ts ts' : List Team}
    (h : valid_region ts) (hp : List.Perm ts' ts) :
    (build_region_bracket ts).map Team.seed =
      [1, 16, 8, 9, 5, 12, 4, 13, 6, 11, 3, 14, 7, 10, 2, 15] ∧
    List.Perm (build_region_bracket ts) ts ∧
    build_region_bracket ts' = build_region_bracket ts :=
  ⟨build_region_bracket_seeds h, build_region_bracket_perm h,
    build_region_bracket_perm_invariant h hp⟩

/-- Witness for C5: the concrete region `east16` and its reversal. -/
theorem c5_bracket_fixed_order_witness :
    (build_region_bracket east16).map Team.seed =
      [1, 16, 8, 9, 5, 12, 4, 13, 6, 11, 3, 14, 7, 10, 2, 15] ∧
    List.Perm (build_region_bracket east16) east16 ∧
    build_region_bracket east16.reverse = build_region_bracket east16 :=
  c5_bracket_fixed_order (by decide) (List.reverse_perm east16)

/-! ### One knockout round -/

lemma simulate_game_cursor (us : ℕ → ℝ) (k : ℕ) (a b : Team) :
    (simulate_game us k a b).2 = k + 1 := by
  unfold simulate_game
  split <;> rfl

lemma simulate_game_cases (us : ℕ → ℝ) (k : ℕ) (a b : Team) :
    (simulate_game us k a b).1 = update_elo a b ∨
    (simulate_game us k a b).1 = update_elo b a := by
  unfold simulate_game
  split
  · exact Or.inl rfl
  · exact Or.inr rfl

lemma simulate_game_pair_names (us : ℕ → ℝ) (k : ℕ) (a b : Team) :
    List.Perm [(simulate_game us k a b).1.1.name, (simulate_game us k a b).1.2.name]
      [a.name, b.name] := by
  rcases simulate_game_cases us k a b with h | h <;> rw [h]
  · exact List.Perm.refl _
  · exact List.Perm.swap _ _ _

lemma simulate_game_elo_sum (us : ℕ → ℝ) (k : ℕ) (a b : Team) :
    (simulate_game us k a b).1.1.elo + (simulate_game us k a b).1.2.elo =
      a.elo + b.elo := by
  rcases simulate_game_cases us k a b with h | h <;> rw [h, update_elo_sum]
  ring

lemma play_round_nil (us : ℕ → ℝ) (k : ℕ) : play_round us k [] = ([], [], k) := rfl

lemma play_round_cons (us : ℕ → ℝ) (k : ℕ) (a b : Team) (rest : List Team) :
    play_round us k (a :: b :: rest) =
      ((simulate_game us k a b).1 :: (play_round us (simulate_game us k a b).2 rest).1,
       (simulate_game us k a b).1.1 :: (play_round us (simulate_game us k a b).2 rest).2.1,
       (play_round us (simulate_game us k a b).2 rest).2.2) := rfl

lemma play_round_structure :
    ∀ (m : ℕ) (l : List Team) (us : ℕ → ℝ) (k : ℕ), l.length = 2 * m →
      (play_round us k l).1.length = m ∧
      (play_round us k l).2.1 = (play_round us k l).1.map Prod.fst ∧
      (play_round us k l).2.2 = k + m := by
  intro m
  induction m with
  | zero =>
    intro l us k hl
    rw [Nat.mul_zero, List.length_eq_zero] at hl
    subst hl
    simp [play_round_nil]
  | succ m ih =>
    intro l us k hl
    match l with
    | [] => simp at hl
    | [a] =>
      have h1 : (1 : ℕ) = 2 * (m + 1) := by simpa using hl
      omega
    | a :: b :: rest =>
      have hrest : rest.length = 2 * m := by
        simp only [List.length_cons] at hl
        omega
      rw [play_round_cons]
      rcases ih rest us (simulate_game us k a b).2 hrest with ⟨h1, h2, h3⟩
      refine ⟨by simp [h1], by simp [h2], ?_⟩
      show (play_round us (simulate_game us k a b).2 rest).2.2 = k + (m + 1)
      rw [h3, simulate_game_cursor]
      omega

lemma play_round_participants :
    ∀ (m : ℕ) (l : List Team) (us : ℕ → ℝ) (k : ℕ), l.length = 2 * m →
      List.Perm (participant_names (play_round us k l).1) (l.map Team.name) := by
  intro m
  induction m with
  | zero =>
    intro l us k hl
    rw [Nat.mul_zero, List.length_eq_zero] at hl
    subst hl
    simp [play_round_nil, participant_names]
  | succ m ih =>
    intro l us k hl
    match l with
    | [] => simp at hl
    | [a] =>
      have h1 : (1 : ℕ) = 2 * (m + 1) := by simpa using hl
      omega
    | a :: b :: rest =>
      have hrest : rest.length = 2 * m := by
        simp only [List.length_cons] at hl
        omega
      rw [play_round_cons]
      have hpair := simulate_game_pair_names us k a b
      have htail := ih rest us (simulate_game us k a b).2 hrest
      show List.Perm
        ((simulate_game us k a b).1.1.name :: (simulate_game us k a b).1.2.name ::
          participant_names (play_round us (simulate_game us k a b).2 rest).1)
        (a.name :: b.name :: rest.map Team.name)
      exact List.Perm.append hpair htail

lemma play_round_winner_names :
    ∀ (m : ℕ) (l : List Team) (us : ℕ → ℝ) (k : ℕ), l.length = 2 * m →
      ∀ t ∈ (play_round us k l).2.1, t.name ∈ l.map Team.name := by
  intro m
  induction m with
  | zero =>
    intro l us k hl
    rw [Nat.mul_zero, List.length_eq_zero] at hl
    subst hl
    simp [play_round_nil]
  | succ m ih =>
    intro l us k hl
    match l with
    | [] => simp at hl
    | [a] =>
      have h1 : (1 : ℕ) = 2 * (m + 1) := by simpa using hl
      omega
    | a :: b :: rest =>
      have hrest : rest.length = 2 * m := by
        simp only [List.length_cons] at hl
        omega
      rw [play_round_cons]
      intro t ht
      simp only [List.map_cons, List.mem_cons]
      rcases List.mem_cons.mp ht with heq | hmem
      · have hcases : t.name = a.name ∨ t.name = b.name := by
          rcases simulate_game_cases us k a b with h | h
          · rw [heq, h]
            exact Or.inl (update_elo_winner_name a b)
          · rw [heq, h]
            exact Or.inr (update_elo_winner_name b a)
        tauto
      · have hrec := ih rest us (simulate_game us k a b).2 hrest t hmem
        exact Or.inr (Or.inr hrec)

lemma play_round_elo_sum :
    ∀ (m : ℕ) (l : List Team) (us : ℕ → ℝ) (k : ℕ), l.length = 2 * m →
      (((play_round us k l).2.1).map Team.elo).sum + losers_elo (play_round us k l).1 =
        (l.map Team.elo).sum := by
  intro m
  induction m with
  | zero =>
    intro l us k hl
    rw [Nat.mul_zero, List.length_eq_zero] at hl
    subst hl
    simp [play_round_nil, losers_elo]
  | succ m ih =>
    intro l us k hl
    match l with
    | [] => simp at hl
    | [a] =>
      have h1 : (1 : ℕ) = 2 * (m + 1) := by simpa using hl
      omega
    | a :: b :: rest =>
      have hrest : rest.length = 2 * m := by
        simp only [List.length_cons] at hl
        omega
      rw [play_round_cons]
      have htail := ih rest us (simulate_game us k a b).2 hrest
      have hgame := simulate_game_elo_sum us k a b
      simp only [losers_elo, List.map_cons, List.sum_cons] at htail ⊢
      linarith

/-! ### The knockout loop on `2 ^ j` teams -/

lemma round_lengths_four : round_lengths 4 = [8, 4, 2, 1] := by decide

lemma simulate_region_loop_master :
    ∀ (j fuel : ℕ), j ≤ fuel → ∀ (us : ℕ → ℝ) (current : List Team) (k : ℕ),
      current.length = 2 ^ j →
      ((simulate_region_loop us fuel current k).1.map List.length = round_lengths j) ∧
      ((simulate_region_loop us fuel current k).2.1.length = 1) ∧
      (∀ t ∈ (simulate_region_loop us fuel current k).2.1,
        t.name ∈ current.map Team.name) ∧
      ((simulate_region_loop us fuel current k).2.2 = k + (2 ^ j - 1)) ∧
      ((((simulate_region_loop us fuel current k).2.1).map Team.elo).sum
          + (((simulate_region_loop us fuel current k).1).map losers_elo).sum
        = (current.map Team.elo).sum) ∧
      chained (current.map Team.name) (simulate_region_loop us fuel current k).1 := by
  intro j
  induction j with
  | zero =>
    intro fuel _ us current k hlen
    have h1 : current.length ≤ 1 := by rw [hlen, pow_zero]
    have hloop : simulate_region_loop us fuel current k = ([], current, k) := by
      cases fuel with
      | zero => rfl
      | succ f => simp [simulate_region_loop, if_pos h1]
    rw [hloop]
    refine ⟨rfl, by simpa using hlen,
      fun t ht => List.mem_map_of_mem Team.name ht, by simp, by simp, trivial⟩
  | succ j ih =>
    intro fuel hj us current k hlen
    cases fuel with
    | zero => omega
    | succ f =>
      have hgt : ¬ current.length ≤ 1 := by
        rw [hlen]
        have : 1 < 2 ^ (j + 1) := Nat.one_lt_two_pow_iff.mpr (Nat.succ_ne_zero j)
        omega
      have hloop : simulate_region_loop us (f + 1) current k =
          ((play_round us k current).1 ::
            (simulate_region_loop us f (play_round us k current).2.1
              (play_round us k current).2.2).1,
           (simulate_region_loop us f (play_round us k current).2.1
              (play_round us k current).2.2).2.1,
           (simulate_region_loop us f (play_round us k current).2.1
              (play_round us k current).2.2).2.2) := by
        simp [simulate_region_loop, if_neg hgt]
      have hlen2m : current.length = 2 * 2 ^ j := by
        rw [hlen, pow_succ]
        ring
      rcases play_round_structure (2 ^ j) current us k hlen2m with ⟨hg, hw, hk⟩
      have hnext : (play_round us k current).2.1.length = 2 ^ j := by
        rw [hw, List.length_map, hg]
      have hjf : j ≤ f := Nat.succ_le_succ_iff.mp hj
      rcases ih f hjf us (play_round us k current).2.1 (play_round us k current).2.2
          hnext with ⟨ih1, ih2, ih3, ih4, ih5, ih6⟩
      have hone : 1 ≤ 2 ^ j := Nat.one_le_two_pow
      rw [hloop]
      refine ⟨?_, ih2, ?_, ?_, ?_, ?_⟩
      · simp only [List.map_cons, ih1, hg, round_lengths]
      · intro t ht
        have h1 := ih3 t ht
        rcases List.mem_map.mp h1 with ⟨u, hu, hname⟩
        have := play_round_winner_names (2 ^ j) current us k hlen2m u hu
        rwa [← hname]
      · show (simulate_region_loop us f (play_round us k current).2.1
            (play_round us k current).2.2).2.2 = k + (2 ^ (j + 1) - 1)
        rw [ih4, hk, pow_succ]
        omega
      · have hpr := play_round_elo_sum (2 ^ j) current us k hlen2m
        simp only [List.map_cons, List.sum_cons] at ih5 ⊢
        linarith
      · refine ⟨play_round_participants (2 ^ j) current us k hlen2m, ?_⟩
        have : winner_names (play_round us k current).1 =
            ((play_round us k current).2.1).map Team.name := by
          rw [hw, List.map_map]
          rfl
        rw [this]
        exact ih6

lemma chained_getD :
    ∀ (rounds : List (List (Team × Team))) (entrants : List String),
      chained entrants rounds → ∀ i, i + 1 < rounds.length →
      List.Perm (participant_names (rounds.getD (i + 1) []))
        (winner_names (rounds.getD i [])) := by
  intro rounds
  induction rounds with
  | nil => intro entrants _ i hi; simp at hi
  | cons g rest ih =>
    intro entrants hch i hi
    rcases hch with ⟨h1, h2⟩
    cases i with
    | zero =>
      match rest, h2, hi with
      | g2 :: rest', h2, _ => exact h2.1
    | succ i =>
      have hi' : i + 1 < rest.length := by simpa using hi
      exact ih (winner_names g) h2 i hi'

lemma bracket_length (ts : List Team) : (build_region_bracket ts).length = 16 := by
  rw [build_region_bracket_eq_map]
  rfl

/-- C6: `simulate_region` on a 16-team region with unique seeds 1-16 returns
exactly 4 rounds with game counts `[8, 4, 2, 1]`, each round's participants
are exactly the previous round's winners (up to pairing order, identifying
teams by name), and the returned region champion is one of the 16 input
teams. -/
theorem c6_region_rounds_structure (us : ℕ → ℝ) (k : ℕ) {ts : List Team}
    (h : valid_region ts) :
    ((simulate_region us ts k).1.2).map List.length = [8, 4, 2, 1] ∧
    (∀ i, i + 1 < (simulate_region us ts k).1.2.length →
      List.Perm (participant_names ((simulate_region us ts k).1.2.getD (i + 1) []))
        (winner_names ((simulate_region us ts k).1.2.getD i []))) ∧
    (simulate_region us ts k).1.1.name ∈ ts.map Team.name := by
  have hlen : (build_region_bracket ts).length = 2 ^ 4 := bracket_length ts
  rcases simulate_region_loop_master 4 (build_region_bracket ts).length
      (by rw [bracket_length]; omega) us (build_region_bracket ts) k hlen
    with ⟨h1, h2, h3, _, _, h6⟩
  refine ⟨?_, ?_, ?_⟩
  · show (simulate_region_loop us (build_region_bracket ts).length
        (build_region_bracket ts) k).1.map List.length = _
    rw [h1, round_lengths_four]
  · intro i hi
    exact chained_getD _ _ h6 i hi
  · show ((simulate_region_loop us (build_region_bracket ts).length
        (build_region_bracket ts) k).2.1.headD default).name ∈ ts.map Team.name
    rcases List.length_eq_one.mp h2 with ⟨x, hx⟩
    have hxmem : x ∈ (simulate_region_loop us (build_region_bracket ts).length
        (build_region_bracket ts) k).2.1 := by
      rw [hx]
      exact List.mem_singleton.mpr rfl
    have := h3 x hxmem
    rw [hx]
    simp only [List.headD_cons]
    have hperm := (build_region_bracket_perm h).map Team.name
    exact hperm.mem_iff.mp this

/-- Witness for C6 at the concrete region `east16` with the constant draw
sequence 0. -/
theorem c6_region_rounds_structure_witness :
    ((simulate_region (fun _ => 0) east16 0).1.2).map List.length = [8, 4, 2, 1] ∧
    (∀ i, i + 1 < (simulate_region (fun _ => 0) east16 0).1.2.length →
      List.Perm
        (participant_names ((simulate_region (fun _ => 0) east16 0).1.2.getD (i + 1) []))
        (winner_names ((simulate_region (fun _ => 0) east16 0).1.2.getD i []))) ∧
    (simulate_region (fun _ => 0) east16 0).1.1.name ∈ east16.map Team.name :=
  c6_region_rounds_structure (fun _ => 0) 0 (by decide)

/-! ### The frame property of `run_single` -/

/-- C4: running one simulated tournament through `run_single` leaves every
team of the caller's original roster unchanged: `copy.deepcopy` allocates
fresh heap cells beyond the existing heap, the simulation mutates only those,
and every original heap cell reads the same value (in particular the same
rating) after the call as before. -/
theorem c4_run_single_preserves_original (us : ℕ → ℝ) (h : List Team)
    (roster : List ℕ) (k i : ℕ) (hi : i < h.length) :
    heap_get (run_single_heap us h roster k).2.1 i = heap_get h i := by
  unfold run_single_heap heap_get
  exact List.getD_append _ _ _ _ hi

/-- Witness for C4 at a concrete one-team heap. -/
theorem c4_run_single_preserves_original_witness :
    heap_get (run_single_heap us0 [⟨"x", 1500, 1, "east"⟩] [0] 0).2.1 0 =
      heap_get [⟨"x", 1500, 1, "east"⟩] 0 :=
  c4_run_single_preserves_original us0 [⟨"x", 1500, 1, "east"⟩] [0] 0 0
    (by simp)

/-! ### Region-level consequences of the loop lemmas -/

lemma bracket_length_pow (ts : List Team) :
    (build_region_bracket ts).length = 2 ^ 4 := by
  rw [bracket_length]
  norm_num

lemma region_loop_inst (us : ℕ → ℝ) (ts : List Team) (k : ℕ) :
    ((simulate_region_loop us (build_region_bracket ts).length
        (build_region_bracket ts) k).1.map List.length = round_lengths 4) ∧
    ((simulate_region_loop us (build_region_bracket ts).length
        (build_region_bracket ts) k).2.1.length = 1) ∧
    (∀ t ∈ (simulate_region_loop us (build_region_bracket ts).length
        (build_region_bracket ts) k).2.1,
      t.name ∈ (build_region_bracket ts).map Team.name) ∧
    ((simulate_region_loop us (build_region_bracket ts).length
        (build_region_bracket ts) k).2.2 = k + (2 ^ 4 - 1)) ∧
    ((((simulate_region_loop us (build_region_bracket ts).length
          (build_region_bracket ts) k).2.1).map Team.elo).sum
        + (((simulate_region_loop us (build_region_bracket ts).length
          (build_region_bracket ts) k).1).map losers_elo).sum
      = ((build_region_bracket ts).map Team.elo).sum) ∧
    chained ((build_region_bracket ts).map Team.name)
      (simulate_region_loop us (build_region_bracket ts).length
        (build_region_bracket ts) k).1 :=
  simulate_region_loop_master 4 (build_region_bracket ts).length
    (by rw [bracket_length]; omega) us (build_region_bracket ts) k
    (bracket_length_pow ts)

lemma simulate_region_cursor (us : ℕ → ℝ) (ts : List Team) (k : ℕ) :
    (simulate_region us ts k).2 = k + 15 := by
  have h := (region_loop_inst us ts k).2.2.2.1
  show (simulate_region_loop us (build_region_bracket ts).length
      (build_region_bracket ts) k).2.2 = k + 15
  rw [h]
  norm_num

lemma simulate_region_final_singleton (us : ℕ → ℝ) (ts : List Team) (k : ℕ) :
    (simulate_region_loop us (build_region_bracket ts).length
        (build_region_bracket ts) k).2.1 = [(simulate_region us ts k).1.1] := by
  rcases List.length_eq_one.mp (region_loop_inst us ts k).2.1 with ⟨x, hx⟩
  rw [hx]
  show _ = [(simulate_region_loop us (build_region_bracket ts).length
      (build_region_bracket ts) k).2.1.headD default]
  rw [hx]
  rfl

lemma simulate_region_champ_name (us : ℕ → ℝ) (ts : List Team) (k : ℕ) :
    (simulate_region us ts k).1.1.name ∈ (build_region_bracket ts).map Team.name := by
  have h3 := (region_loop_inst us ts k).2.2.1
  apply h3
  rw [simulate_region_final_singleton]
  exact List.mem_singleton.mpr rfl

lemma simulate_region_elo (us : ℕ → ℝ) (ts : List Team) (k : ℕ) :
    (simulate_region us ts k).1.1.elo
      + (((simulate_region us ts k).1.2).map losers_elo).sum
    = ((build_region_bracket ts).map Team.elo).sum := by
  have h5 := (region_loop_inst us ts k).2.2.2.2.1
  rw [simulate_region_final_singleton] at h5
  simp only [List.map_cons, List.map_nil, List.sum_cons, List.sum_nil, add_zero] at h5
  exact h5

/-- On a valid region, the champion's name is an input name and the bracket
rating sum is the region's rating sum. -/
lemma simulate_region_champ_name_valid {ts : List Team} (h : valid_region ts)
    (us : ℕ → ℝ) (k : ℕ) :
    (simulate_region us ts k).1.1.name ∈ ts.map Team.name :=
  ((build_region_bracket_perm h).map Team.name).mem_iff.mp
    (simulate_region_champ_name us ts k)

lemma simulate_region_elo_valid {ts : List Team} (h : valid_region ts)
    (us : ℕ → ℝ) (k : ℕ) :
    (simulate_region us ts k).1.1.elo
      + (((simulate_region us ts k).1.2).map losers_elo).sum
    = (ts.map Team.elo).sum := by
  rw [simulate_region_elo]
  exact ((build_region_bracket_perm h).map Team.elo).sum_eq

/-! ### Tournament-level lemmas -/

lemma simulate_tournament_cursor (us : ℕ → ℝ) (ts : List Team) (k : ℕ) :
    (simulate_tournament us ts k).2 = k + 63 := by
  show (simulate_game us _ _ _).2 = k + 63
  rw [simulate_game_cursor, simulate_game_cursor, simulate_game_cursor,
    simulate_region_cursor, simulate_region_cursor, simulate_region_cursor,
    simulate_region_cursor]

lemma valid_roster_region {ts : List Team} (hv : valid_roster ts) {r : String}
    (hr : r ∈ REGIONS) : valid_region (ts.filter fun t => t.region = r) :=
  hv.2.2.2 r hr

lemma simulate_game_winner_name_mem (us : ℕ → ℝ) (k : ℕ) (a b : Team) :
    (simulate_game us k a b).1.1.name = a.name ∨
    (simulate_game us k a b).1.1.name = b.name := by
  rcases simulate_game_cases us k a b with h | h
  · exact Or.inl (by rw [h]; rfl)
  · exact Or.inr (by rw [h]; rfl)

lemma simulate_tournament_champ_name {ts : List Team} (hv : valid_roster ts)
    (us : ℕ → ℝ) (k : ℕ) :
    (simulate_tournament us ts k).1.champ_result.1.name ∈ ts.map Team.name := by
  have hsub : ∀ r : String, ∀ x : Team,
      x.name ∈ (ts.filter fun t => t.region = r).map Team.name →
        x.name ∈ ts.map Team.name := by
    intro r x hx
    rcases List.mem_map.mp hx with ⟨t, ht, hn⟩
    exact hn ▸ List.mem_map_of_mem Team.name (List.mem_of_mem_filter ht)
  simp only [simulate_tournament]
  generalize hE : simulate_region us (ts.filter fun t => t.region = "east") k = E
  generalize hW : simulate_region us (ts.filter fun t => t.region = "west") E.2 = W
  generalize hS : simulate_region us (ts.filter fun t => t.region = "south") W.2 = S
  generalize hM : simulate_region us (ts.filter fun t => t.region = "midwest") S.2 = M
  have he : E.1.1.name ∈ ts.map Team.name := hsub "east" E.1.1 (hE ▸
    simulate_region_champ_name_valid (valid_roster_region hv (by decide)) us k)
  have hw : W.1.1.name ∈ ts.map Team.name := hsub "west" W.1.1 (hW ▸
    simulate_region_champ_name_valid (valid_roster_region hv (by decide)) us E.2)
  have hs : S.1.1.name ∈ ts.map Team.name := hsub "south" S.1.1 (hS ▸
    simulate_region_champ_name_valid (valid_roster_region hv (by decide)) us W.2)
  have hm : M.1.1.name ∈ ts.map Team.name := hsub "midwest" M.1.1 (hM ▸
    simulate_region_champ_name_valid (valid_roster_region hv (by decide)) us S.2)
  have hsemi1 := simulate_game_winner_name_mem us M.2 E.1.1 W.1.1
  have hsemi2 := simulate_game_winner_name_mem us (simulate_game us M.2 E.1.1 W.1.1).2
    S.1.1 M.1.1
  have hfinal := simulate_game_winner_name_mem us
    (simulate_game us (simulate_game us M.2 E.1.1 W.1.1).2 S.1.1 M.1.1).2
    (simulate_game us M.2 E.1.1 W.1.1).1.1
    (simulate_game us (simulate_game us M.2 E.1.1 W.1.1).2 S.1.1 M.1.1).1.1
  rcases hfinal with h | h <;> rw [h]
  · rcases hsemi1 with h1 | h1 <;> rw [h1]
    · exact he
    · exact hw
  · rcases hsemi2 with h2 | h2 <;> rw [h2]
    · exact hs
    · exact hm

/-- Sum of a roster's ratings decomposes along the 4 region filters when every
team carries one of the 4 region labels. -/
lemma elo_partition {ts : List Team} (hreg : ∀ t ∈ ts, t.region ∈ REGIONS) :
    ((ts.filter fun t => t.region = "east").map Team.elo).sum
      + ((ts.filter fun t => t.region = "west").map Team.elo).sum
      + ((ts.filter fun t => t.region = "south").map Team.elo).sum
      + ((ts.filter fun t => t.region = "midwest").map Team.elo).sum
    = (ts.map Team.elo).sum := by
  induction ts with
  | nil => simp
  | cons t rest ih =>
    have hrest : ∀ u ∈ rest, u.region ∈ REGIONS := fun u hu =>
      hreg u (List.mem_cons_of_mem t hu)
    have ihr := ih hrest
    have ht := hreg t (List.mem_cons_self t rest)
    have hcases : t.region = "east" ∨ t.region = "west" ∨ t.region = "south" ∨
        t.region = "midwest" := by
      simpa [REGIONS] using ht
    rcases hcases with h | h | h | h <;>
        simp only [List.filter_cons, h, decide_eq_true_eq]
    · rw [if_pos trivial, if_neg (by decide), if_neg (by decide), if_neg (by decide)]
      simp only [List.map_cons, List.sum_cons]
      linarith
    · rw [if_neg (by decide), if_pos trivial, if_neg (by decide), if_neg (by decide)]
      simp only [List.map_cons, List.sum_cons]
      linarith
    · rw [if_neg (by decide), if_neg (by decide), if_pos trivial, if_neg (by decide)]
      simp only [List.map_cons, List.sum_cons]
      linarith
    · rw [if_neg (by decide), if_neg (by decide), if_neg (by decide), if_pos trivial]
      simp only [List.map_cons, List.sum_cons]
      linarith

/-- C10: for a structurally valid 64-team roster, the sum of all 64 teams'
ratings in the simulated copy is unchanged by a full tournament simulation:
every mutation goes through the pairwise zero-sum `update_elo`, so the sum of
the final ratings read off the result (champion, runner-up and all recorded
losers) equals the sum of the input ratings. -/
theorem c10_total_elo_invariant {ts : List Team} (hv : valid_roster ts)
    (us : ℕ → ℝ) (k : ℕ) :
    total_final_elo (simulate_tournament us ts k).1 = (ts.map Team.elo).sum := by
  have hpart := elo_partition hv.2.2.1
  simp only [total_final_elo, simulate_tournament]
  generalize hE : simulate_region us (ts.filter fun t => t.region = "east") k = E
  generalize hW : simulate_region us (ts.filter fun t => t.region = "west") E.2 = W
  generalize hS : simulate_region us (ts.filter fun t => t.region = "south") W.2 = S
  generalize hM : simulate_region us (ts.filter fun t => t.region = "midwest") S.2 = M
  have he : E.1.1.elo + ((E.1.2).map losers_elo).sum =
      ((ts.filter fun t => t.region = "east").map Team.elo).sum := hE ▸
    simulate_region_elo_valid (valid_roster_region hv (by decide)) us k
  have hw : W.1.1.elo + ((W.1.2).map losers_elo).sum =
      ((ts.filter fun t => t.region = "west").map Team.elo).sum := hW ▸
    simulate_region_elo_valid (valid_roster_region hv (by decide)) us E.2
  have hs : S.1.1.elo + ((S.1.2).map losers_elo).sum =
      ((ts.filter fun t => t.region = "south").map Team.elo).sum := hS ▸
    simulate_region_elo_valid (valid_roster_region hv (by decide)) us W.2
  have hm : M.1.1.elo + ((M.1.2).map losers_elo).sum =
      ((ts.filter fun t => t.region = "midwest").map Team.elo).sum := hM ▸
    simulate_region_elo_valid (valid_roster_region hv (by decide)) us S.2
  have hg1 := simulate_game_elo_sum us M.2 E.1.1 W.1.1
  have hg2 := simulate_game_elo_sum us (simulate_game us M.2 E.1.1 W.1.1).2 S.1.1 M.1.1
  have hgc := simulate_game_elo_sum us
    (simulate_game us (simulate_game us M.2 E.1.1 W.1.1).2 S.1.1 M.1.1).2
    (simulate_game us M.2 E.1.1 W.1.1).1.1
    (simulate_game us (simulate_game us M.2 E.1.1 W.1.1).2 S.1.1 M.1.1).1.1
  simp only [losers_elo, List.map_cons, List.map_nil, List.sum_cons, List.sum_nil]
  linarith

/-- Witness for C10 at the concrete valid roster `roster64`. -/
theorem c10_total_elo_invariant_witness :
    total_final_elo (simulate_tournament us0 roster64 0).1 =
      (roster64.map Team.elo).sum :=
  c10_total_elo_invariant (by decide) us0 0

/-! ### Tallying: only the champion bump touches slot 5 -/

lemma bump_slot5_of_ne {names : List String} {counts : String → ℕ → ℕ}
    {nm : String} {slot : ℕ} (h : slot ≠ 5) (n : String) :
    bump names counts nm slot n 5 = counts n 5 := by
  unfold bump
  split
  · show (if n = nm ∧ 5 = slot then counts n 5 + 1 else counts n 5) = counts n 5
    rw [if_neg]
    rintro ⟨-, h5⟩
    exact h h5.symm
  · rfl

lemma tally_games_slot5 {names : List String} {slot : ℕ} (h : slot ≠ 5) :
    ∀ (gs : List (Team × Team)) (counts : String → ℕ → ℕ) (n : String),
      tally_games names counts slot gs n 5 = counts n 5 := by
  intro gs
  induction gs with
  | nil => intro counts n; rfl
  | cons g gs ih =>
    intro counts n
    show tally_games names (bump names counts g.1.name slot) slot gs n 5 = _
    rw [ih, bump_slot5_of_ne h]

lemma tally_rounds_slot5 {names : List String} :
    ∀ (rounds : List (List (Team × Team))) (r_idx : ℕ)
      (counts : String → ℕ → ℕ) (n : String), r_idx + rounds.length ≤ 5 →
      tally_rounds names counts r_idx rounds n 5 = counts n 5 := by
  intro rounds
  induction rounds with
  | nil => intro r_idx counts n _; rfl
  | cons round0 rest ih =>
    intro r_idx counts n hle
    simp only [List.length_cons] at hle
    show tally_rounds names (tally_games names counts r_idx round0) (r_idx + 1) rest n 5 = _
    rw [ih (r_idx + 1) _ n (by omega), tally_games_slot5 (by omega)]

lemma tally_regions_slot5 {names : List String} :
    ∀ (rb : List (String × List (List (Team × Team))))
      (counts : String → ℕ → ℕ) (n : String),
      (∀ pr ∈ rb, pr.2.length ≤ 4) →
      tally_regions names counts rb n 5 = counts n 5 := by
  intro rb
  induction rb with
  | nil => intro counts n _; rfl
  | cons pr rest ih =>
    intro counts n hlen
    show tally_regions names (tally_rounds names counts 0 pr.2) rest n 5 = _
    rw [ih _ n fun q hq => hlen q (List.mem_cons_of_mem pr hq),
      tally_rounds_slot5 pr.2 0 counts n
        (by have := hlen pr (List.mem_cons_self pr rest); omega)]

lemma tally_result_slot5 {names : List String} {counts : String → ℕ → ℕ}
    {res : TournamentResult} (hres : ∀ pr ∈ res.region_brackets, pr.2.length ≤ 4)
    (n : String) :
    tally_result names counts res n 5 =
      if res.champ_result.1.name ∈ names then
        (if n = res.champ_result.1.name then counts n 5 + 1 else counts n 5)
      else counts n 5 := by
  unfold tally_result bump
  have hbase : ∀ m : String,
      tally_games names (tally_regions names counts res.region_brackets) 4
        res.f4_results m 5 = counts m 5 := by
    intro m
    rw [tally_games_slot5 (by omega), tally_regions_slot5 _ _ _ hres]
  split
  · simp [hbase]
  · exact hbase n

lemma sum_map_bumped {teams : List Team} {nm : String}
    (hnd : (teams.map Team.name).Nodup) (hmem : nm ∈ teams.map Team.name)
    (c : String → ℕ → ℕ) :
    (teams.map fun t => if t.name = nm then c t.name 5 + 1 else c t.name 5).sum =
      (teams.map fun t => c t.name 5).sum + 1 := by
  induction teams with
  | nil => simp at hmem
  | cons t rest ih =>
    rw [List.map_cons, List.nodup_cons] at hnd
    simp only [List.map_cons, List.sum_cons]
    rcases List.mem_cons.mp hmem with heq | hmem'
    · rw [if_pos heq.symm]
      have hrest : (rest.map fun u => if u.name = nm then c u.name 5 + 1 else c u.name 5)
          = rest.map fun u => c u.name 5 := by
        apply List.map_congr_left
        intro u hu
        rw [if_neg]
        intro hEq
        exact hnd.1 (heq ▸ hEq ▸ List.mem_map_of_mem Team.name hu)
      rw [hrest]
      omega
    · have hne : ¬ t.name = nm := by
        intro hEq
        exact hnd.1 (hEq ▸ hmem')
      rw [if_neg hne, ih hnd.2 hmem']
      omega

lemma sum_tally_results {teams : List Team}
    (hnd : (teams.map Team.name).Nodup) :
    ∀ (results : List TournamentResult) (c : String → ℕ → ℕ),
      (∀ res ∈ results, good_result (teams.map Team.name) res) →
      (teams.map fun t =>
        tally_results (teams.map Team.name) c results t.name 5).sum =
      (teams.map fun t => c t.name 5).sum + results.length := by
  intro results
  induction results with
  | nil => intro c _; rfl
  | cons res rest ih =>
    intro c hgood
    have hres := hgood res (List.mem_cons_self res rest)
    show (teams.map fun t => tally_results (teams.map Team.name)
      (tally_result (teams.map Team.name) c res) rest t.name 5).sum = _
    rw [ih _ fun q hq => hgood q (List.mem_cons_of_mem res hq)]
    have hstep : (teams.map fun t =>
        tally_result (teams.map Team.name) c res t.name 5).sum =
        (teams.map fun t => c t.name 5).sum + 1 := by
      have hpoint : (teams.map fun t =>
          tally_result (teams.map Team.name) c res t.name 5) =
          teams.map fun t =>
            if t.name = res.champ_result.1.name then c t.name 5 + 1 else c t.name 5 := by
        apply List.map_congr_left
        intro t _
        rw [tally_result_slot5 hres.2, if_pos hres.1]
      rw [hpoint, sum_map_bumped hnd hres.1]
    rw [hstep]
    simp only [List.length_cons]
    omega

/-! ### Results produced by the simulator are good -/

lemma simulate_region_rounds_count (us : ℕ → ℝ) (ts : List Team) (k : ℕ) :
    (simulate_region us ts k).1.2.length = 4 := by
  have h1 := (region_loop_inst us ts k).1
  have h2 := congrArg List.length h1
  rw [List.length_map] at h2
  exact h2

lemma simulate_tournament_region_rounds (us : ℕ → ℝ) (ts : List Team) (k : ℕ) :
    ∀ pr ∈ (simulate_tournament us ts k).1.region_brackets, pr.2.length = 4 := by
  intro pr hpr
  have hmem : pr ∈ [("east", (simulate_region us (ts.filter fun t => t.region = "east") k).1.2),
      ("west", (simulate_region us (ts.filter fun t => t.region = "west")
        (simulate_region us (ts.filter fun t => t.region = "east") k).2).1.2),
      ("south", (simulate_region us (ts.filter fun t => t.region = "south")
        (simulate_region us (ts.filter fun t => t.region = "west")
          (simulate_region us (ts.filter fun t => t.region = "east") k).2).2).1.2),
      ("midwest", (simulate_region us (ts.filter fun t => t.region = "midwest")
        (simulate_region us (ts.filter fun t => t.region = "south")
          (simulate_region us (ts.filter fun t => t.region = "west")
            (simulate_region us (ts.filter fun t => t.region = "east") k).2).2).2).1.2)] :=
    hpr
  simp only [List.mem_cons, List.not_mem_nil, or_false] at hmem
  rcases hmem with rfl | rfl | rfl | rfl <;> exact simulate_region_rounds_count _ _ _

lemma run_trials_mem {us : ℕ → ℝ} {ts : List Team} :
    ∀ {n k : ℕ} {res : TournamentResult}, res ∈ (run_trials us ts n k).1 →
      ∃ j, res = (simulate_tournament us ts j).1 := by
  intro n
  induction n with
  | zero => intro k res h; simp [run_trials] at h
  | succ n ih =>
    intro k res h
    rcases List.mem_cons.mp h with heq | hmem
    · exact ⟨k, heq⟩
    · exact ih hmem

lemma run_trials_good {us : ℕ → ℝ} {ts : List Team} (hv : valid_roster ts)
    {n k : ℕ} :
    ∀ res ∈ (run_trials us ts n k).1, good_result (ts.map Team.name) res := by
  intro res hres
  rcases run_trials_mem hres with ⟨j, rfl⟩
  exact ⟨simulate_tournament_champ_name hv us j,
    fun pr hpr => le_of_eq (simulate_tournament_region_rounds us ts j pr hpr)⟩

lemma run_trials_length (us : ℕ → ℝ) (ts : List Team) :
    ∀ n k, (run_trials us ts n k).1.length = n := by
  intro n
  induction n with
  | zero => intro k; rfl
  | succ n ih => intro k; simp only [run_trials, List.length_cons, ih]

lemma sum_map_div (l : List Team) (g : Team → ℝ) (d : ℝ) :
    (l.map fun t => g t / d).sum = (l.map g).sum / d := by
  induction l with
  | nil => simp
  | cons t rest ih => simp [ih, add_div]

lemma sum_map_natCast (l : List Team) (f : Team → ℕ) :
    (l.map fun t => ((f t : ℕ) : ℝ)).sum = (((l.map f).sum : ℕ) : ℝ) := by
  induction l with
  | nil => simp
  | cons t rest ih => simp [ih]

/-- C7: for a valid 64-team roster and `n ≥ 1` simulated tournaments, exactly
one team's championship tally (slot 5) is incremented per trial, so the sum of
the raw championship counts over the roster equals `n`, and the championship
probability column computed from the raw counts before rounding sums to
exactly 1. -/
theorem c7_champ_counts_sum {ts : List Team} (hv : valid_roster ts)
    (us : ℕ → ℝ) (n k : ℕ) (hn : 1 ≤ n) :
    (ts.map fun t => compute_counts ts (run_trials us ts n k).1 t.name 5).sum = n ∧
    (ts.map fun t =>
      ((compute_counts ts (run_trials us ts n k).1 t.name 5 : ℕ) : ℝ) / n).sum = 1 := by
  have hcount : (ts.map fun t =>
      compute_counts ts (run_trials us ts n k).1 t.name 5).sum = n := by
    unfold compute_counts
    rw [sum_tally_results hv.1 _ _ (run_trials_good hv)]
    simp [run_trials_length]
  refine ⟨hcount, ?_⟩
  rw [sum_map_div, sum_map_natCast, hcount]
  have hne : (n : ℝ) ≠ 0 := Nat.cast_ne_zero.mpr (by omega)
  exact div_self hne

/-- Witness for C7: the concrete valid roster `roster64` with a single trial. -/
theorem c7_champ_counts_sum_witness :
    (roster64.map fun t =>
      compute_counts roster64 (run_trials us0 roster64 1 0).1 t.name 5).sum = 1 ∧
    (roster64.map fun t =>
      ((compute_counts roster64 (run_trials us0 roster64 1 0).1 t.name 5 : ℕ) : ℝ)
        / (1 : ℕ)).sum = 1 := by
  have h := @c7_champ_counts_sum roster64 (by decide) us0 1 0 (by omega)
  simpa using h

/-! ### The shared ambient generator -/

/-- C9 (amended): the randomness of every game resolution is drawn from the
single shared ambient generator, threaded sequentially through all games and
trials.  Each tournament consumes exactly 63 draws, so under `run_trials`
trial `i` reads the shared stream starting at offset `63 * i` — where the
previous trial left off — rather than from an independently supplied source;
given the same ambient sequence the whole run is deterministic. -/
theorem c9_shared_generator_offsets (us : ℕ → ℝ) (ts : List Team) :
    ∀ n k, (run_trials us ts n k).1 =
        (List.range n).map (fun i => (simulate_tournament us ts (k + 63 * i)).1) ∧
      (run_trials us ts n k).2 = k + 63 * n := by
  intro n
  induction n with
  | zero => intro k; simp [run_trials]
  | succ n ih =>
    intro k
    have hr2 : (run_single us ts k).2 = k + 63 := simulate_tournament_cursor us ts k
    constructor
    · show (run_single us ts k).1 ::
        (run_trials us ts n (run_single us ts k).2).1 = _
      rw [hr2, (ih (k + 63)).1, List.range_succ_eq_map, List.map_cons, List.map_map]
      refine congrArg₂ List.cons (by simp [run_single]) ?_
      apply List.map_congr_left
      intro i _
      show (simulate_tournament us ts (k + 63 + 63 * i)).1 =
        (simulate_tournament us ts (k + 63 * (i + 1))).1
      rw [show k + 63 * (i + 1) = k + 63 + 63 * i by ring]
    · show (run_trials us ts n (run_single us ts k).2).2 = k + 63 * (n + 1)
      rw [hr2, (ih (k + 63)).2]
      omega

/-- Projecting out the first recorded round-of-64 game of the east region:
it is the game between the east seed-1 and seed-16 teams, played at the
cursor the tournament was entered with. -/
lemma first_game_proj (us : ℕ → ℝ) (ts : List Team) (k : ℕ) :
    first_rd64_winner_name (simulate_tournament us ts k).1 =
      (simulate_game us k (by_seed (ts.filter fun t => t.region = "east") 1)
        (by_seed (ts.filter fun t => t.region = "east") 16)).1.1.name := rfl

lemma east_seed1 :
    by_seed (roster64.filter fun t => t.region = "east") 1 =
      ⟨"east1", 1500, 1, "east"⟩ := rfl

lemma east_seed16 :
    by_seed (roster64.filter fun t => t.region = "east") 16 =
      ⟨"east16", 1500, 16, "east"⟩ := rfl

lemma first_game_at_zero :
    first_rd64_winner_name ((run_single us0 roster64 0).1) = "east1" := by
  show first_rd64_winner_name ((simulate_tournament us0 roster64 0).1) = "east1"
  rw [first_game_proj, east_seed1, east_seed16]
  have hp : win_prob (⟨"east1", 1500, 1, "east"⟩ : Team)
      (⟨"east16", 1500, 16, "east"⟩ : Team) = 1 / 2 := win_prob_of_elo_eq rfl
  unfold simulate_game
  rw [if_pos (by rw [show us0 0 = (0 : ℝ) from rfl, hp]; norm_num)]
  rfl

lemma first_game_at_63 :
    first_rd64_winner_name ((simulate_tournament us0 roster64 63).1) = "east16" := by
  rw [first_game_proj, east_seed1, east_seed16]
  have hp : win_prob (⟨"east1", 1500, 1, "east"⟩ : Team)
      (⟨"east16", 1500, 16, "east"⟩ : Team) = 1 / 2 := win_prob_of_elo_eq rfl
  unfold simulate_game
  rw [if_neg (by rw [show us0 63 = (1 : ℝ) from rfl, hp]; norm_num)]
  rfl

/-- Counterexample to C9 as stated: the code draws from the shared ambient
generator, so under `run_trials` the second trial does not see the same random
sequence as a run given that sequence directly — its first east game resolves
differently from `run_single` on the same roster and the same ambient
sequence, while the first trial coincides with it.  Were each game's
randomness supplied externally per simulation call, both trials would replay
`run_single` identically. -/
theorem c9_counterexample :
    first_rd64_winner_name ((run_trials us0 roster64 2 0).1.getD 1 default) ≠
      first_rd64_winner_name ((run_single us0 roster64 0).1) ∧
    first_rd64_winner_name ((run_trials us0 roster64 2 0).1.getD 0 default) =
      first_rd64_winner_name ((run_single us0 roster64 0).1) := by
  have hcursor : (run_single us0 roster64 0).2 = 63 :=
    simulate_tournament_cursor us0 roster64 0
  have hgetD1 : (run_trials us0 roster64 2 0).1.getD 1 default =
      (simulate_tournament us0 roster64 63).1 := by
    show ((run_single us0 roster64 0).1 ::
        (run_trials us0 roster64 1 (run_single us0 roster64 0).2).1).getD 1 default = _
    rw [hcursor, List.getD_cons_succ]
    show ((run_single us0 roster64 63).1 ::
        (run_trials us0 roster64 0 (run_single us0 roster64 63).2).1).getD 0 default = _
    rw [List.getD_cons_zero]
    rfl
  have hgetD0 : (run_trials us0 roster64 2 0).1.getD 0 default =
      (run_single us0 roster64 0).1 := by
    show ((run_single us0 roster64 0).1 ::
        (run_trials us0 roster64 1 (run_single us0 roster64 0).2).1).getD 0 default = _
    rw [List.getD_cons_zero]
  constructor
  · rw [hgetD1, first_game_at_63, first_game_at_zero]
    decide
  · rw [hgetD0]

end MM
